import Mathlib

/-!
Verification of the ConvertaTXT batch file-ingestion and text-normalization
pipeline (`src/App.tsx`, with the timeout-wrapped variant of the pipeline in
the second source revision).  JavaScript strings are modelled as `List Char`
for the text payloads and as Lean `String` for names, media types and option
values; each definition transcribes the corresponding source function.
-/

namespace ConvertaTXT

/-- Model of the JavaScript whitespace class used by `String.prototype.trim`
(space, tab, LF, CR, vertical tab, form feed, NBSP, BOM). -/
def jsWhitespace (c : Char) : Bool :=
  c = ' ' || c = '\t' || c = '\n' || c = '\r' || c = '\x0b' || c = '\x0c' ||
  c = '\u00A0' || c = '\uFEFF'

/-- Model of JavaScript `line.trim()`: drop leading and trailing whitespace. -/
def jsTrim (l : List Char) : List Char :=
  ((l.dropWhile (fun c => jsWhitespace c)).reverse.dropWhile
    (fun c => jsWhitespace c)).reverse

/-- Model of JavaScript `text.split('\n')`: split a character list at every
line feed, keeping empty segments (so `"".split` gives one empty segment). -/
def splitNL : List Char → List (List Char)
  | [] => [[]]
  | c :: cs =>
    match splitNL cs with
    | [] => [[]]
    | l :: ls => if c = '\n' then [] :: l :: ls else (c :: l) :: ls

/-- Model of JavaScript `lines.join('\n')`: interleave a line feed between
the segments. -/
def joinNL : List (List Char) → List Char
  | [] => []
  | [l] => l
  | l :: ls => l ++ '\n' :: joinNL ls

/-- Model of JavaScript `text.replace(/\n/g, repl)` for a global single-char
pattern: every line feed is replaced by `repl`, left to right, without
re-scanning the replacement. -/
def replaceNL (repl : List Char) : List Char → List Char
  | [] => []
  | c :: cs => if c = '\n' then repl ++ replaceNL repl cs else c :: replaceNL repl cs

/-- ConversionOptions from `App.tsx`: encoding is informational only, the
other three fields drive the normalizer. -/
structure ConversionOptions where
  encoding : String
  lineEnding : String
  removeEmptyLines : Bool
  trimWhitespace : Bool
deriving DecidableEq

/-- Default options installed by `useState` in `App.tsx`
(`UTF-8`, `LF`, both flags off). -/
def defaultOptions : ConversionOptions :=
  { encoding := "UTF-8", lineEnding := "LF",
    removeEmptyLines := false, trimWhitespace := false }

/-- Transcription of the body of `handleConvert` in `App.tsx` (the text
normalizer): optionally trim each line, optionally drop lines whose trimmed
content is empty, then rewrite line endings (`CRLF` replaces each line feed
with CR LF, `CR` replaces each line feed with CR, anything else leaves the
text as is). -/
def normalize (text : List Char) (options : ConversionOptions) : List Char :=
  let c1 := if options.trimWhitespace
    then joinNL ((splitNL text).map jsTrim) else text
  let c2 := if options.removeEmptyLines
    then joinNL ((splitNL c1).filter (fun line => decide (0 < (jsTrim line).length)))
    else c1
  if options.lineEnding = "CRLF" then replaceNL ['\r', '\n'] c2
  else if options.lineEnding = "CR" then replaceNL ['\r'] c2
  else c2

/-- Spec-side description of the CRLF rewrite: "insert a carriage return
before every line feed". -/
def insertCRBeforeLF : List Char → List Char
  | [] => []
  | c :: cs =>
    if c = '\n' then '\r' :: '\n' :: insertCRBeforeLF cs
    else c :: insertCRBeforeLF cs

/-- Spec-side description of the CR rewrite: "replace every line feed with a
carriage return". -/
def lfToCR : List Char → List Char
  | [] => []
  | c :: cs => (if c = '\n' then '\r' else c) :: lfToCR cs

/-- Spec-side step 1: when enabled, trim leading/trailing whitespace from
every line. -/
def trimStep (b : Bool) (t : List Char) : List Char :=
  if b then joinNL ((splitNL t).map jsTrim) else t

/-- Spec-side step 2: when enabled, drop every line whose trimmed content has
zero length. -/
def removeEmptyStep (b : Bool) (t : List Char) : List Char :=
  if b then joinNL ((splitNL t).filter (fun line => decide (0 < (jsTrim line).length)))
  else t

/-- Spec-side step 3: rewrite line terminators according to the lineEnding
option. -/
def endingStep (le : String) (t : List Char) : List Char :=
  if le = "CRLF" then insertCRBeforeLF t
  else if le = "CR" then lfToCR t
  else t

/-- Boolean test that a character list begins with a given pattern. -/
def beginsWith : List Char → List Char → Bool
  | _, [] => true
  | [], _ :: _ => false
  | c :: cs, p :: ps => c = p && beginsWith cs ps

/-- Model of JavaScript `s.startsWith(p)` on our string model. -/
def strBegins (s p : String) : Bool := beginsWith s.data p.data

/-- Splitting a character list at every occurrence of a separator character,
modelling JavaScript `name.split('.')`. -/
def splitOnChar (sep : Char) : List Char → List (List Char)
  | [] => [[]]
  | c :: cs =>
    match splitOnChar sep cs with
    | [] => [[]]
    | l :: ls => if c = sep then [] :: l :: ls else (c :: l) :: ls

/-- ASCII lowercasing of one character, modelling `toLowerCase` on the ASCII
range that file extensions use. -/
def lowerChar (c : Char) : Char :=
  if 'A' ≤ c && c ≤ 'Z' then Char.ofNat (c.toNat + 32) else c

/-- Transcription of `file.name.split('.').pop()?.toLowerCase()`: the last
dot-separated segment of the name, lowercased (a name without a dot yields
the whole name). -/
def extOf (name : String) : String :=
  String.mk (((splitOnChar '.' name.data).getLastD []).map lowerChar)

/-- SourceFile: the metadata and (for text files) content of one input file
as seen by `processFile`.  `dateShown` abstracts the rendering of
`new Date(lastModified).toLocaleString()`; `textContent` is the result of
`file.text()` for text files. -/
structure SourceFile where
  name : String
  relativePath : String
  mediaType : String
  sizeBytes : Nat
  dateShown : String
  textContent : List Char
deriving DecidableEq

/-- Transcription of `file.webkitRelativePath || file.name` (the empty string
is falsy in JavaScript). -/
def filePath (f : SourceFile) : String :=
  if f.relativePath = "" then f.name else f.relativePath

/-- Transcription of `extension || 'unknown'` used for the originalType
field. -/
def origType (name : String) : String :=
  if extOf name = "" then "unknown" else extOf name

/-- Synthesized metadata header prepended by `processFile` in `App.tsx`:
`File Information:` with path, name, date and size, then a `Content:`
banner. -/
def headerString (f : SourceFile) : String :=
  "File Information:\nPath: " ++ filePath f ++ "\nName: " ++ f.name ++
  "\nDate: " ++ f.dateShown ++ "\nSize: " ++ toString f.sizeBytes ++
  " bytes\n\nContent:\n"

/-- ProcessedFile record built by `processFile` on success. -/
structure ProcessedFile where
  name : String
  content : List Char
  originalType : String
  path : String
deriving DecidableEq

/-- Extraction strategy tags implicit in the if/else dispatch of
`processFile` in `App.tsx`. -/
inductive StrategyTag where
  | text
  | image
  | pdf
  | office
  | unsupported
deriving DecidableEq

/-- Transcription of the format dispatch in `processFile` (`App.tsx`): first
`file.type.startsWith('text/')`, then `startsWith('image/')`, then
`file.type === 'application/pdf' || extension === 'pdf'`, then the Office
extension list, else unsupported. -/
def classify (f : SourceFile) : StrategyTag :=
  let extension := extOf f.name
  if strBegins f.mediaType "text/" then StrategyTag.text
  else if strBegins f.mediaType "image/" then StrategyTag.image
  else if f.mediaType = "application/pdf" ∨ extension = "pdf" then StrategyTag.pdf
  else if extension ∈ ["doc", "docx", "xls", "xlsx", "ppt", "pptx"] then StrategyTag.office
  else StrategyTag.unsupported

/-- External extraction collaborators (OCR, PDF text layer, Office readers),
modelled as oracles from a file to extracted text or an error message. -/
structure Extractors where
  ocr : SourceFile → Except String (List Char)
  pdfText : SourceFile → Except String (List Char)
  officeText : SourceFile → Except String (List Char)

/-- Outcome of processing one file: a ProcessedFile, or a failure carrying
the file name and the error message (the arguments of `logError`). -/
inductive FileOutcome where
  | success (pf : ProcessedFile)
  | failure (fileName message : String)
deriving DecidableEq

/-- ProcessedFile assembled by `processFile` on success: the metadata header
followed by the extracted content. -/
def mkProcessed (f : SourceFile) (content : List Char) : ProcessedFile :=
  { name := f.name
    content := (headerString f).data ++ content
    originalType := origType f.name
    path := filePath f }

/-- Transcription of `processFile` in `App.tsx`: dispatch on the classifier;
text files yield their own text, the other recognized formats consult their
extraction collaborator (any thrown error becomes a failure outcome via the
surrounding try/catch), anything unrecognized yields the
`Unsupported file type` failure. -/
def processFile (env : Extractors) (f : SourceFile) : FileOutcome :=
  match classify f with
  | StrategyTag.text => FileOutcome.success (mkProcessed f f.textContent)
  | StrategyTag.image =>
    match env.ocr f with
    | Except.ok t => FileOutcome.success (mkProcessed f t)
    | Except.error m => FileOutcome.failure f.name m
  | StrategyTag.pdf =>
    match env.pdfText f with
    | Except.ok t => FileOutcome.success (mkProcessed f t)
    | Except.error m => FileOutcome.failure f.name m
  | StrategyTag.office =>
    match env.officeText f with
    | Except.ok t => FileOutcome.success (mkProcessed f t)
    | Except.error m => FileOutcome.failure f.name m
  | StrategyTag.unsupported => FileOutcome.failure f.name "Unsupported file type"

/-- Success payload of an outcome, if any. -/
def successPart : FileOutcome → Option ProcessedFile
  | FileOutcome.success pf => some pf
  | FileOutcome.failure _ _ => none

/-- Log line format of `logError` in `App.tsx`. -/
def errorLogMessage (fileName message : String) : String :=
  "Error processing " ++ fileName ++ ": " ++ message ++ "\n"

/-- Mutable state of one batch run: the `stats` record (total, processed,
failed), the error log, the accumulated results, plus a ghost `started`
field recording every file that was handed to the per-file runner (used to
state that cancellation prevents later extractions from starting). -/
structure BatchState where
  total : Nat
  processed : Nat
  failed : Nat
  errorLogs : List String
  results : List ProcessedFile
  started : List SourceFile
deriving DecidableEq

/-- State installed at batch start by `handleFolderUpload`:
`setStats({total: files.length, processed: 0, failed: 0})`, empty log and
empty result list. -/
def initState (n : Nat) : BatchState :=
  { total := n, processed := 0, failed := 0,
    errorLogs := [], results := [], started := [] }

/-- Effect of one resolved outcome on the batch state: `updateStats` bumps
processed (and failed on a failure), `logError` appends a log line on a
failure, and a success is appended to the result collection. -/
def stepFile (st : BatchState) (o : FileOutcome) : BatchState :=
  match o with
  | FileOutcome.success pf =>
    { st with processed := st.processed + 1, results := st.results ++ [pf] }
  | FileOutcome.failure n m =>
    { st with
      processed := st.processed + 1
      failed := st.failed + 1
      errorLogs := st.errorLogs ++ [errorLogMessage n m] }

/-- One group of the batch loop: every file of the group is started, all
outcomes resolve (`Promise.all` preserves the group order), and the
resolved outcomes are folded into the state in the group's order. -/
def processGroup (run : SourceFile → FileOutcome) (st : BatchState)
    (group : List SourceFile) : BatchState :=
  group.foldl (fun s f => stepFile s (run f))
    { st with started := st.started ++ group }

/-- Transcription of the grouping `fileArray.slice(i, i + batchSize)` with
`batchSize = 5`: consecutive chunks of five files, the last one possibly
shorter. -/
def chunk5 {α : Type} : List α → List (List α)
  | [] => []
  | [a] => [[a]]
  | [a, b] => [[a, b]]
  | [a, b, c] => [[a, b, c]]
  | [a, b, c, d] => [[a, b, c, d]]
  | a :: b :: c :: d :: e :: rest => [a, b, c, d, e] :: chunk5 rest

/-- Terminal status of a batch run: the catch block of `handleFolderUpload`
distinguishes the 'Processing cancelled' message from any other error. -/
inductive RunStatus where
  | completed
  | cancelled
  | errored
deriving DecidableEq

/-- Countdown to the first group-boundary check that observes the abort
signal (`none` means the signal is never observed). -/
def tick : Option Nat → Option Nat
  | none => none
  | some 0 => some 0
  | some (k + 1) => some k

/-- Group loop of `handleFolderUpload`: before each group the abort signal is
checked (modelled by the countdown: `some 0` means this check observes the
signal and the loop throws 'Processing cancelled'); otherwise the group is
processed to completion and the loop continues. -/
def runGroups (run : SourceFile → FileOutcome) :
    Option Nat → BatchState → List (List SourceFile) → BatchState × RunStatus
  | _, st, [] => (st, RunStatus.completed)
  | c, st, g :: gs =>
    if c = some 0 then (st, RunStatus.cancelled)
    else runGroups run (tick c) (processGroup run st g) gs

/-- Transcription of `handleFolderUpload` in `App.tsx` (batch orchestrator):
initialize the stats for `files.length` files, then run the group loop over
chunks of five with the given cancellation schedule. -/
def processAll (env : Extractors) (cancelAt : Option Nat)
    (files : List SourceFile) : BatchState × RunStatus :=
  runGroups (processFile env) cancelAt (initState files.length) (chunk5 files)

/-- Transcription of `processFileWithTimeout` from the second source
revision: a timer set at `tm` milliseconds races `processFile`; `finish f`
is the (abstract) instant at which the underlying processing settles
(`none` when it never settles).  If the settlement does not happen before
the timer fires, the runner rejects with 'File processing timed out' and
the eventual result of the still-running extraction is discarded. -/
def processFileWithTimeout (base : SourceFile → FileOutcome)
    (finish : SourceFile → Option Nat) (tm : Nat) (f : SourceFile) : FileOutcome :=
  match finish f with
  | some t =>
    if t < tm then base f
    else FileOutcome.failure f.name "File processing timed out"
  | none => FileOutcome.failure f.name "File processing timed out"

/-- Decision that a file's processing does not settle before the timeout
fires. -/
def timesOut (finish : SourceFile → Option Nat) (tm : Nat) (f : SourceFile) : Bool :=
  match finish f with
  | some t => decide (tm ≤ t)
  | none => true

/-- Batch orchestrator of the second source revision: groups of five, each
file wrapped by `processFileWithTimeout` whose rejection is caught per file
(`.catch` in the group map), no cancellation check in the loop. -/
def processAllTimed (base : SourceFile → FileOutcome)
    (finish : SourceFile → Option Nat) (tm : Nat)
    (files : List SourceFile) : BatchState × RunStatus :=
  runGroups (processFileWithTimeout base finish tm) none
    (initState files.length) (chunk5 files)

/-- Number of success outcomes in a list. -/
def successCount : List FileOutcome → Nat
  | [] => 0
  | FileOutcome.success _ :: os => successCount os + 1
  | FileOutcome.failure _ _ :: os => successCount os

/-- Number of failure outcomes in a list. -/
def failCount : List FileOutcome → Nat
  | [] => 0
  | FileOutcome.success _ :: os => failCount os
  | FileOutcome.failure _ _ :: os => failCount os + 1

/-- Media types the classifier in `App.tsx` recognizes directly. -/
def recognizedMedia (t : String) : Bool :=
  strBegins t "text/" || strBegins t "image/" || decide (t = "application/pdf")

/-- Extensions the classifier in `App.tsx` recognizes in its fallback. -/
def supportedExt (e : String) : Bool :=
  decide (e = "pdf" ∨ e ∈ (["doc", "docx", "xls", "xlsx", "ppt", "pptx"] : List String))

/-- Office media types listed by the spec (the `allowedExtensions` table of
the second source revision). -/
def officeMimes : List String :=
  ["application/msword",
   "application/vnd.openxmlformats-officedocument.wordprocessingml.document",
   "application/vnd.ms-excel",
   "application/vnd.openxmlformats-officedocument.spreadsheetml.sheet",
   "application/vnd.ms-powerpoint",
   "application/vnd.openxmlformats-officedocument.presentationml.presentation"]

/-- Spec-side notion of a well-known recognized media type: `text/*`,
`image/*`, `application/pdf`, and the recognized Office media types. -/
def specRecognizedMedia (t : String) : Bool :=
  strBegins t "text/" || strBegins t "image/" ||
  decide (t = "application/pdf") || decide (t ∈ officeMimes)

/-- Spec-side routing by declared media type alone. -/
def specRouteByMedia (t : String) : StrategyTag :=
  if strBegins t "text/" then StrategyTag.text
  else if strBegins t "image/" then StrategyTag.image
  else if t = "application/pdf" then StrategyTag.pdf
  else if t ∈ officeMimes then StrategyTag.office
  else StrategyTag.unsupported

/-- Spec-worded decomposition of the classifier that actually matches the
code: the declared media type wins when it is `text/*`, `image/*` or
`application/pdf`; otherwise the extension decides (`pdf` to the PDF
strategy, the six Office extensions to the Office strategy, anything else
unsupported). -/
def mediaFirstRoute (t e : String) : StrategyTag :=
  if strBegins t "text/" then StrategyTag.text
  else if strBegins t "image/" then StrategyTag.image
  else if t = "application/pdf" then StrategyTag.pdf
  else if e = "pdf" then StrategyTag.pdf
  else if e ∈ ["doc", "docx", "xls", "xlsx", "ppt", "pptx"] then StrategyTag.office
  else StrategyTag.unsupported

/-- Options selecting the CRLF line ending with both flags off. -/
def crlfOptions : ConversionOptions :=
  { encoding := "UTF-8", lineEnding := "CRLF",
    removeEmptyLines := false, trimWhitespace := false }

/-- Extraction oracles that always succeed with empty text, for concrete
witnesses. -/
def trivialExtract : Extractors :=
  { ocr := fun _ => Except.ok []
    pdfText := fun _ => Except.ok []
    officeText := fun _ => Except.ok [] }

/-- Concrete plain-text file used in witnesses. -/
def wTextFile : SourceFile :=
  { name := "a.txt", relativePath := "", mediaType := "text/plain",
    sizeBytes := 2, dateShown := "2024", textContent := ['h', 'i'] }

/-- Concrete unsupported file (`.xyz`, no recognized media type) used in
witnesses. -/
def wXyzFile : SourceFile :=
  { name := "b.xyz", relativePath := "", mediaType := "",
    sizeBytes := 0, dateShown := "", textContent := [] }

/-- Concrete file whose extension and declared media type disagree: `.xyz`
extension with the docx media type. -/
def mismatchFile : SourceFile :=
  { name := "a.xyz", relativePath := "",
    mediaType := "application/vnd.openxmlformats-officedocument.wordprocessingml.document",
    sizeBytes := 0, dateShown := "", textContent := [] }

/-- BatchProgress invariant bundle for the state reached after a prefix of
outcomes has resolved: processed equals successes plus failures, processed
is bounded by total, total equals the batch size fixed at start, and one
more resolved outcome can only increase processed and failed while leaving
total unchanged. -/
def progressInvariant (n : Nat) (pre : List FileOutcome) : Prop :=
  let st := pre.foldl stepFile (initState n)
  st.processed = successCount pre + st.failed
  ∧ st.processed ≤ st.total
  ∧ st.total = n
  ∧ ∀ o : FileOutcome,
      st.processed ≤ (stepFile st o).processed
      ∧ st.failed ≤ (stepFile st o).failed
      ∧ (stepFile st o).total = st.total

theorem foldl_stepFile_results (outs : List FileOutcome) (st : BatchState) :
    (outs.foldl stepFile st).results = st.results ++ outs.filterMap successPart := by
  induction outs generalizing st with
  | nil => simp
  | cons o os ih =>
    cases o <;> simp [stepFile, successPart, ih]

theorem foldl_stepFile_started (outs : List FileOutcome) (st : BatchState) :
    (outs.foldl stepFile st).started = st.started := by
  induction outs generalizing st with
  | nil => rfl
  | cons o os ih =>
    cases o <;> simp [stepFile, ih]

theorem foldl_stepFile_processed (outs : List FileOutcome) (st : BatchState) :
    (outs.foldl stepFile st).processed = st.processed + outs.length := by
  induction outs generalizing st with
  | nil => rfl
  | cons o os ih =>
    cases o <;> simp [stepFile, ih] <;> omega

theorem foldl_stepFile_failed (outs : List FileOutcome) (st : BatchState) :
    (outs.foldl stepFile st).failed = st.failed + failCount outs := by
  induction outs generalizing st with
  | nil => rfl
  | cons o os ih =>
    cases o <;> (simp [stepFile, failCount, ih]; try omega)

theorem foldl_stepFile_total (outs : List FileOutcome) (st : BatchState) :
    (outs.foldl stepFile st).total = st.total := by
  induction outs generalizing st with
  | nil => rfl
  | cons o os ih =>
    cases o <;> simp [stepFile, ih]

theorem successCount_add_failCount (outs : List FileOutcome) :
    successCount outs + failCount outs = outs.length := by
  induction outs with
  | nil => rfl
  | cons o os ih =>
    cases o <;> simp [successCount, failCount] <;> omega

theorem processGroup_foldl_map (run : SourceFile → FileOutcome)
    (st : BatchState) (g : List SourceFile) :
    processGroup run st g
      = (g.map run).foldl stepFile { st with started := st.started ++ g } := by
  unfold processGroup
  rw [List.foldl_map]

theorem processGroup_results (run : SourceFile → FileOutcome)
    (st : BatchState) (g : List SourceFile) :
    (processGroup run st g).results
      = st.results ++ g.filterMap (fun f => successPart (run f)) := by
  rw [processGroup_foldl_map, foldl_stepFile_results]
  simp only [List.filterMap_map]
  rfl

theorem processGroup_started (run : SourceFile → FileOutcome)
    (st : BatchState) (g : List SourceFile) :
    (processGroup run st g).started = st.started ++ g := by
  rw [processGroup_foldl_map, foldl_stepFile_started]

theorem runGroups_none (run : SourceFile → FileOutcome)
    (gs : List (List SourceFile)) (st : BatchState) :
    runGroups run none st gs = (gs.foldl (processGroup run) st, RunStatus.completed) := by
  induction gs generalizing st with
  | nil => rfl
  | cons g gs ih => simp [runGroups, tick, ih]

theorem foldl_processGroup_results (run : SourceFile → FileOutcome)
    (gs : List (List SourceFile)) (st : BatchState) :
    (gs.foldl (processGroup run) st).results
      = st.results ++ gs.flatten.filterMap (fun f => successPart (run f)) := by
  induction gs generalizing st with
  | nil => simp
  | cons g gs ih => simp [ih, processGroup_results]

theorem foldl_processGroup_started (run : SourceFile → FileOutcome)
    (gs : List (List SourceFile)) (st : BatchState) :
    (gs.foldl (processGroup run) st).started = st.started ++ gs.flatten := by
  induction gs generalizing st with
  | nil => simp
  | cons g gs ih => simp [ih, processGroup_started]

theorem chunk5_flatten {α : Type} (l : List α) : (chunk5 l).flatten = l := by
  match l with
  | [] => rfl
  | [a] => rfl
  | [a, b] => rfl
  | [a, b, c] => rfl
  | [a, b, c, d] => rfl
  | a :: b :: c :: d :: e :: rest =>
    simp [chunk5, chunk5_flatten rest]

theorem runAll_results (run : SourceFile → FileOutcome) (files : List SourceFile) :
    (runGroups run none (initState files.length) (chunk5 files)).1.results
      = files.filterMap (fun f => successPart (run f)) := by
  rw [runGroups_none]
  simp [foldl_processGroup_results, chunk5_flatten, initState]

/-- C1: the batch orchestrator (group size 5) returns the ProcessedFile
entries of every input order in the original input order with failed files
omitted: the final result collection is exactly the order-preserving
filterMap of the per-file outcomes over the input sequence, so failures
remove their entry but never permute the survivors, within a group and
across groups. -/
theorem processAll_order_preserved (env : Extractors) (files : List SourceFile) :
    (processAll env none files).1.results
      = files.filterMap (fun f => successPart (processFile env f)) :=
  runAll_results (processFile env) files

theorem normalize_defaultOptions_eq (t : List Char) :
    normalize t defaultOptions = t := rfl

/-- C10: normalize with the default options (lineEnding LF, trimWhitespace
false, removeEmptyLines false) is the identity function: every input text,
including texts that already contain carriage returns, is returned
unchanged. -/
theorem normalize_default_identity (text : List Char) :
    normalize text defaultOptions = text :=
  normalize_defaultOptions_eq text

/-- C2: evaluation of the normalizer at the failing input: with the CRLF
line ending and both flags off, one application of normalize turns
`a LF b` into `a CR LF b`, but a second application inserts a further
carriage return before the line feed, so normalize is not idempotent —
re-applying the CRLF conversion to already-CRLF text doubles the carriage
returns. -/
theorem normalize_crlf_reapply_doubles_cr :
    normalize ['a', '\n', 'b'] crlfOptions = ['a', '\r', '\n', 'b']
    ∧ normalize (normalize ['a', '\n', 'b'] crlfOptions) crlfOptions
        = ['a', '\r', '\r', '\n', 'b']
    ∧ normalize (normalize ['a', '\n', 'b'] crlfOptions) crlfOptions
        ≠ normalize ['a', '\n', 'b'] crlfOptions := by
  refine ⟨by decide, by decide, by decide⟩

theorem replaceNL_crlf (t : List Char) :
    replaceNL ['\r', '\n'] t = insertCRBeforeLF t := by
  induction t with
  | nil => rfl
  | cons c cs ih =>
    by_cases h : c = '\n' <;> simp [replaceNL, insertCRBeforeLF, h, ih]

theorem replaceNL_cr (t : List Char) :
    replaceNL ['\r'] t = lfToCR t := by
  induction t with
  | nil => rfl
  | cons c cs ih =>
    by_cases h : c = '\n' <;> simp [replaceNL, lfToCR, h, ih]

/-- C7: normalize applies its transforms in the fixed order — first per-line
whitespace trimming (when trimWhitespace), then removal of every line whose
trimmed content is empty (when removeEmptyLines, evaluated after trimming),
and last the line-terminator rewrite, where LF leaves the text as is, CRLF
inserts a carriage return before every line feed, and CR replaces every
line feed with a carriage return. -/
theorem normalize_fixed_order (text : List Char) (opts : ConversionOptions) :
    normalize text opts
      = endingStep opts.lineEnding
          (removeEmptyStep opts.removeEmptyLines (trimStep opts.trimWhitespace text)) := by
  unfold normalize endingStep removeEmptyStep trimStep
  by_cases h1 : opts.lineEnding = "CRLF" <;>
    by_cases h2 : opts.lineEnding = "CR" <;>
      simp [h1, h2, replaceNL_crlf, replaceNL_cr]

/-- C5 counterexample: a file whose extension (`.xyz`) and declared media
type (the docx media type) disagree, where the media type is one of the
well-known recognized values and spec-side routing by media type selects
the Office strategy, yet the classifier in the code returns Unsupported:
the code never routes by Office media types, so the claimed tie-break rule
fails at this input. -/
theorem classify_mediatype_counterexample :
    specRecognizedMedia mismatchFile.mediaType = true
    ∧ specRouteByMedia mismatchFile.mediaType = StrategyTag.office
    ∧ classify mismatchFile = StrategyTag.unsupported := by
  refine ⟨by decide, by decide, by decide⟩

/-- C5 amended: the classifier routes by the declared media type only when
that media type is `text/*`, `image/*`, or `application/pdf`; in every
other case (including the recognized Office media types) it routes by the
lowercase extension — `pdf` to the PDF strategy, the six Office extensions
to the Office strategy, anything else Unsupported — and the classification
depends only on the file's name (through its extension) and declared media
type. -/
theorem classify_media_first_amended (f : SourceFile) :
    classify f = mediaFirstRoute f.mediaType (extOf f.name) := by
  unfold classify mediaFirstRoute
  cases h1 : strBegins f.mediaType "text/" <;>
    cases h2 : strBegins f.mediaType "image/" <;>
      by_cases h3 : f.mediaType = "application/pdf" <;>
        by_cases h4 : extOf f.name = "pdf" <;>
          simp [h1, h2, h3, h4]

/-- C9: for every plain-text input file (declared media type `text/*`),
the pipeline produces a ProcessedFile whose content is exactly the
synthesized metadata header (path, name, date, size) followed by the input
file's text unchanged, and with all normalization options disabled plus the
default encoding the normalizer leaves that content untouched. -/
theorem textFile_roundtrip (env : Extractors) (f : SourceFile)
    (h : strBegins f.mediaType "text/" = true) :
    processFile env f
      = FileOutcome.success
          { name := f.name
            content := (headerString f).data ++ f.textContent
            originalType := origType f.name
            path := filePath f }
    ∧ normalize ((headerString f).data ++ f.textContent) defaultOptions
        = (headerString f).data ++ f.textContent := by
  constructor
  · unfold processFile classify mkProcessed
    simp [h]
  · exact normalize_defaultOptions_eq _

theorem textFile_roundtrip_witness :
    (strBegins wTextFile.mediaType "text/" = true)
    ∧ (processFile trivialExtract wTextFile
        = FileOutcome.success
            { name := wTextFile.name
              content := (headerString wTextFile).data ++ wTextFile.textContent
              originalType := origType wTextFile.name
              path := filePath wTextFile }
      ∧ normalize ((headerString wTextFile).data ++ wTextFile.textContent) defaultOptions
          = (headerString wTextFile).data ++ wTextFile.textContent) :=
  ⟨by decide, textFile_roundtrip trivialExtract wTextFile (by decide)⟩

/-- C8: a file with an unrecognized extension and no recognized declared
media type yields the unsupported-format failure: it increments failedCount
and processedCount but contributes no ProcessedFile, appends one entry to
the error log, and the batch goes on to process every other file exactly as
if the failing file were absent — no per-file error aborts the run. -/
theorem unsupported_file_isolated (env : Extractors) (f : SourceFile)
    (st : BatchState) (pre post : List SourceFile)
    (h1 : recognizedMedia f.mediaType = false)
    (h2 : supportedExt (extOf f.name) = false) :
    processFile env f = FileOutcome.failure f.name "Unsupported file type"
    ∧ (stepFile st (processFile env f)).failed = st.failed + 1
    ∧ (stepFile st (processFile env f)).processed = st.processed + 1
    ∧ (stepFile st (processFile env f)).results = st.results
    ∧ (stepFile st (processFile env f)).errorLogs
        = st.errorLogs ++ [errorLogMessage f.name "Unsupported file type"]
    ∧ (processAll env none (pre ++ f :: post)).1.results
        = (pre.filterMap fun g => successPart (processFile env g))
          ++ (post.filterMap fun g => successPart (processFile env g)) := by
  have h1' := h1
  unfold recognizedMedia at h1'
  simp only [Bool.or_eq_false_iff, decide_eq_false_iff_not] at h1'
  have h2' := h2
  unfold supportedExt at h2'
  simp only [decide_eq_false_iff_not] at h2'
  push_neg at h2'
  have hclass : classify f = StrategyTag.unsupported := by
    unfold classify
    simp [h1'.1.1, h1'.1.2, h1'.2, h2'.1, h2'.2]
  have hrun : processFile env f = FileOutcome.failure f.name "Unsupported file type" := by
    unfold processFile
    rw [hclass]
  refine ⟨hrun, ?_, ?_, ?_, ?_, ?_⟩
  · rw [hrun]; rfl
  · rw [hrun]; rfl
  · rw [hrun]; rfl
  · rw [hrun]; rfl
  · have hall := runAll_results (processFile env) (pre ++ f :: post)
    have : (processAll env none (pre ++ f :: post)).1.results
        = (pre ++ f :: post).filterMap (fun g => successPart (processFile env g)) := hall
    rw [this]
    simp [List.filterMap_append, hrun, successPart]

theorem unsupported_file_isolated_witness :
    (recognizedMedia wXyzFile.mediaType = false
      ∧ supportedExt (extOf wXyzFile.name) = false)
    ∧ (processFile trivialExtract wXyzFile
        = FileOutcome.failure wXyzFile.name "Unsupported file type"
      ∧ (stepFile (initState 3) (processFile trivialExtract wXyzFile)).failed
          = (initState 3).failed + 1
      ∧ (stepFile (initState 3) (processFile trivialExtract wXyzFile)).processed
          = (initState 3).processed + 1
      ∧ (stepFile (initState 3) (processFile trivialExtract wXyzFile)).results
          = (initState 3).results
      ∧ (stepFile (initState 3) (processFile trivialExtract wXyzFile)).errorLogs
          = (initState 3).errorLogs
            ++ [errorLogMessage wXyzFile.name "Unsupported file type"]
      ∧ (processAll trivialExtract none ([wTextFile] ++ wXyzFile :: [wTextFile])).1.results
          = ([wTextFile].filterMap fun g => successPart (processFile trivialExtract g))
            ++ ([wTextFile].filterMap fun g => successPart (processFile trivialExtract g))) :=
  ⟨⟨by decide, by decide⟩,
    unsupported_file_isolated trivialExtract wXyzFile (initState 3)
      [wTextFile] [wTextFile] (by decide) (by decide)⟩

/-- C6: at every point during a run — that is, after any prefix of the
batch's outcomes has resolved — BatchProgress satisfies
processedCount = successCount + failedCount and processedCount ≤ total,
one further resolved outcome can only increase processedCount and
failedCount, and total keeps the value fixed at batch start. -/
theorem batchProgress_invariants (env : Extractors) (files : List SourceFile)
    (pre suf : List FileOutcome)
    (h : pre ++ suf = files.map (processFile env)) :
    progressInvariant files.length pre := by
  have hlen : pre.length ≤ files.length := by
    have := congrArg List.length h
    simp only [List.length_append, List.length_map] at this
    omega
  unfold progressInvariant
  refine ⟨?_, ?_, ?_, ?_⟩
  · rw [foldl_stepFile_processed, foldl_stepFile_failed]
    have := successCount_add_failCount pre
    simp [initState]
    omega
  · rw [foldl_stepFile_processed, foldl_stepFile_total]
    simpa [initState] using hlen
  · rw [foldl_stepFile_total]; rfl
  · intro o
    cases o <;> (simp [stepFile]; try omega)

theorem batchProgress_invariants_witness :
    ([processFile trivialExtract wTextFile] ++ [processFile trivialExtract wXyzFile]
        = [wTextFile, wXyzFile].map (processFile trivialExtract))
    ∧ progressInvariant 2 [processFile trivialExtract wTextFile] :=
  ⟨rfl, batchProgress_invariants trivialExtract [wTextFile, wXyzFile]
      [processFile trivialExtract wTextFile] [processFile trivialExtract wXyzFile] rfl⟩

theorem runGroups_cancel (run : SourceFile → FileOutcome)
    (gs : List (List SourceFile)) (k : Nat) (st : BatchState)
    (h : k < gs.length) :
    runGroups run (some k) st gs
      = ((gs.take k).foldl (processGroup run) st, RunStatus.cancelled) := by
  induction gs generalizing k st with
  | nil => simp at h
  | cons g gs ih =>
    cases k with
    | zero => simp [runGroups]
    | succ k =>
      have hk : k < gs.length := by
        simp only [List.length_cons] at h
        omega
      simp [runGroups, tick, ih k _ hk, List.take_succ_cons]

theorem chunk5_take_flatten {α : Type} (l : List α) (k : Nat) :
    ((chunk5 l).take k).flatten = l.take (5 * k) := by
  match l, k with
  | [], k => simp [chunk5]
  | a :: as, 0 => simp
  | [a], k + 1 =>
    have h1 : (([[a]] : List (List α))).take (k + 1) = [[a]] :=
      List.take_of_length_le (by simp only [List.length_cons, List.length_nil]; omega)
    have h2 : ([a] : List α).take (5 * (k + 1)) = [a] :=
      List.take_of_length_le (by simp only [List.length_cons, List.length_nil]; omega)
    simp [chunk5, h1, h2]
  | [a, b], k + 1 =>
    have h1 : (([[a, b]] : List (List α))).take (k + 1) = [[a, b]] :=
      List.take_of_length_le (by simp only [List.length_cons, List.length_nil]; omega)
    have h2 : ([a, b] : List α).take (5 * (k + 1)) = [a, b] :=
      List.take_of_length_le (by simp only [List.length_cons, List.length_nil]; omega)
    simp [chunk5, h1, h2]
  | [a, b, c], k + 1 =>
    have h1 : (([[a, b, c]] : List (List α))).take (k + 1) = [[a, b, c]] :=
      List.take_of_length_le (by simp only [List.length_cons, List.length_nil]; omega)
    have h2 : ([a, b, c] : List α).take (5 * (k + 1)) = [a, b, c] :=
      List.take_of_length_le (by simp only [List.length_cons, List.length_nil]; omega)
    simp [chunk5, h1, h2]
  | [a, b, c, d], k + 1 =>
    have h1 : (([[a, b, c, d]] : List (List α))).take (k + 1) = [[a, b, c, d]] :=
      List.take_of_length_le (by simp only [List.length_cons, List.length_nil]; omega)
    have h2 : ([a, b, c, d] : List α).take (5 * (k + 1)) = [a, b, c, d] :=
      List.take_of_length_le (by simp only [List.length_cons, List.length_nil]; omega)
    simp [chunk5, h1, h2]
  | a :: b :: c :: d :: e :: rest, k + 1 =>
    have ih := chunk5_take_flatten rest k
    have h5 : 5 * (k + 1) = 5 + 5 * k := by ring
    calc ((chunk5 (a :: b :: c :: d :: e :: rest)).take (k + 1)).flatten
        = [a, b, c, d, e] ++ ((chunk5 rest).take k).flatten := by
          simp [chunk5, List.take_succ_cons]
      _ = [a, b, c, d, e] ++ rest.take (5 * k) := by rw [ih]
      _ = (a :: b :: c :: d :: e :: rest).take (5 * (k + 1)) := by
          rw [h5, List.take_add]
          rfl

/-- C4: once cancellation has been signaled — modelled as the k-th
group-boundary check being the first to observe the abort signal, with k
inside the run — no extraction for a file in any later group is ever
started (the ghost `started` list is exactly the first 5k files), all
ProcessedFiles accumulated from the k groups that fully resolved before
the check are retained and returned in order, and the run terminates with
the distinguishable cancelled status rather than an error. -/
theorem processAll_cancelled_early (env : Extractors) (files : List SourceFile)
    (k : Nat) (h : k < (chunk5 files).length) :
    (processAll env (some k) files).1.results
        = (files.take (5 * k)).filterMap (fun f => successPart (processFile env f))
    ∧ (processAll env (some k) files).1.started = files.take (5 * k)
    ∧ (processAll env (some k) files).2 = RunStatus.cancelled := by
  have hc : processAll env (some k) files
      = (((chunk5 files).take k).foldl (processGroup (processFile env))
          (initState files.length), RunStatus.cancelled) :=
    runGroups_cancel (processFile env) (chunk5 files) k (initState files.length) h
  refine ⟨?_, ?_, by rw [hc]⟩
  · rw [hc]
    simp [foldl_processGroup_results, chunk5_take_flatten, initState]
  · rw [hc]
    simp [foldl_processGroup_started, chunk5_take_flatten, initState]

theorem processAll_cancelled_early_witness :
    (1 < (chunk5 (List.replicate 6 wTextFile)).length)
    ∧ ((processAll trivialExtract (some 1) (List.replicate 6 wTextFile)).1.results
        = ((List.replicate 6 wTextFile).take (5 * 1)).filterMap
            (fun f => successPart (processFile trivialExtract f))
      ∧ (processAll trivialExtract (some 1) (List.replicate 6 wTextFile)).1.started
          = (List.replicate 6 wTextFile).take (5 * 1)
      ∧ (processAll trivialExtract (some 1) (List.replicate 6 wTextFile)).2
          = RunStatus.cancelled) :=
  ⟨by decide,
    processAll_cancelled_early trivialExtract (List.replicate 6 wTextFile) 1 (by decide)⟩

/-- C3: the per-file task runner time-boxes each extraction: whenever the
underlying processing does not settle before the timeout fires, the runner
returns the timeout failure for that file — whatever the abandoned
extraction would eventually produce is discarded — and the batch over any
surrounding files still processes every other file exactly as usual, so
later groups are never blocked by the unfinished extraction. -/
theorem timeout_failure_isolated (base : SourceFile → FileOutcome)
    (finish : SourceFile → Option Nat) (tm : Nat) (f : SourceFile)
    (pre post : List SourceFile) (h : timesOut finish tm f = true) :
    processFileWithTimeout base finish tm f
        = FileOutcome.failure f.name "File processing timed out"
    ∧ (processAllTimed base finish tm (pre ++ f :: post)).1.results
        = (pre.filterMap fun g => successPart (processFileWithTimeout base finish tm g))
          ++ (post.filterMap fun g => successPart (processFileWithTimeout base finish tm g)) := by
  have hto : processFileWithTimeout base finish tm f
      = FileOutcome.failure f.name "File processing timed out" := by
    unfold timesOut at h
    cases hf : finish f with
    | none => simp [processFileWithTimeout, hf]
    | some t =>
      rw [hf] at h
      simp only [decide_eq_true_eq] at h
      have hnl : ¬ t < tm := by omega
      simp [processFileWithTimeout, hf, hnl]
  refine ⟨hto, ?_⟩
  have hall : (processAllTimed base finish tm (pre ++ f :: post)).1.results
      = (pre ++ f :: post).filterMap
          (fun g => successPart (processFileWithTimeout base finish tm g)) :=
    runAll_results (processFileWithTimeout base finish tm) (pre ++ f :: post)
  rw [hall]
  simp [List.filterMap_append, hto, successPart]

theorem timeout_failure_isolated_witness :
    (timesOut (fun _ => none) 30000 wTextFile = true)
    ∧ (processFileWithTimeout (fun g => FileOutcome.failure g.name "e")
          (fun _ => none) 30000 wTextFile
        = FileOutcome.failure wTextFile.name "File processing timed out"
      ∧ (processAllTimed (fun g => FileOutcome.failure g.name "e")
            (fun _ => none) 30000 ([wXyzFile] ++ wTextFile :: [wXyzFile])).1.results
          = ([wXyzFile].filterMap fun g =>
              successPart (processFileWithTimeout
                (fun g => FileOutcome.failure g.name "e") (fun _ => none) 30000 g))
            ++ ([wXyzFile].filterMap fun g =>
              successPart (processFileWithTimeout
                (fun g => FileOutcome.failure g.name "e") (fun _ => none) 30000 g))) :=
  ⟨rfl, timeout_failure_isolated (fun g => FileOutcome.failure g.name "e")
      (fun _ => none) 30000 wTextFile [wXyzFile] [wXyzFile] rfl⟩

end ConvertaTXT
